import Mathlib

/-!
Verification development for the PDF PII redaction engine
(`src/utils/patterns.js`, `src/services/pdfExtractor.js`,
`src/services/pdfRedactor.js`).

The pattern engine is embedded as a small backtracking matcher over
"item lists": every regex used by the source is a plain concatenation of
counted character-class repetitions and word-boundary assertions, so a
pattern is a `List Item` and matching follows the JS semantics
(leftmost match, greedy repetition with backtracking, `\b` via
word-char transitions, global matching restarting after each match).
-/

namespace CvEditor

/-- Word character for the JS `\b` assertion: `[A-Za-z0-9_]`. -/
def isWordChar (c : Char) : Bool := c.isAlphanum || c == '_'

/-- JS `\s` class: WhiteSpace and LineTerminator code points. -/
def isJsWhitespace (c : Char) : Bool :=
  c == ' ' || c == '\t' || c == '\n' || c == '\r'
  || c.val == 11 || c.val == 12 || c.val == 160 || c.val == 0x1680
  || (decide (0x2000 ≤ c.val) && decide (c.val ≤ 0x200A))
  || c.val == 0x2028 || c.val == 0x2029 || c.val == 0x202F || c.val == 0x205F
  || c.val == 0x3000 || c.val == 0xFEFF

/-- The character class `[A-Za-z0-9._%+-]` (local part of the email regex). -/
def localChar (c : Char) : Bool :=
  c.isAlphanum || c == '.' || c == '_' || c == '%' || c == '+' || c == '-'

/-- The character class `[A-Za-z0-9.-]` (domain part of the email regex). -/
def domainChar (c : Char) : Bool :=
  c.isAlphanum || c == '.' || c == '-'

/-- The character class `[A-Z|a-z]` of the email regex: note that it
literally contains the `|` character in the source. -/
def tldChar (c : Char) : Bool :=
  c.isAlpha || c == '|'

/-- The class `\d`. -/
def digitChar (c : Char) : Bool := c.isDigit

/-- The class `[\s.-]` used as separator in the phone regexes. -/
def sepChar (c : Char) : Bool :=
  isJsWhitespace c || c == '.' || c == '-'

/-- Single-character literal class. -/
def chr (a : Char) : Char → Bool := fun c => c == a

/-- One element of a linear regex: a counted greedy repetition of a
character class (`hi = none` meaning unbounded), or a `\b` assertion. -/
inductive Item where
  | cls (p : Char → Bool) (lo : Nat) (hi : Option Nat)
  | wb

/-- Length of the maximal prefix of `s` whose characters satisfy `p`. -/
def runLen (p : Char → Bool) : List Char → Nat
  | [] => 0
  | c :: cs => if p c then runLen p cs + 1 else 0

/-- Word-boundary test between the previous character and the rest of
the input (out-of-string counts as non-word, as in JS). -/
def atBoundary (prev : Option Char) (s : List Char) : Bool :=
  (match prev with | none => false | some c => isWordChar c)
    != (match s with | [] => false | c :: _ => isWordChar c)

/-- First `some` value of `f` over a list of candidate numbers. -/
def firstSome? {α : Type} (f : Nat → Option α) : List Nat → Option α
  | [] => none
  | k :: ks =>
    match f k with
    | some r => some r
    | none => firstSome? f ks

/-- Candidate repetition counts `[k, k-1, ..., lo]` (greedy order). -/
def countsDesc (lo k : Nat) : List Nat :=
  (List.range' lo (k + 1 - lo)).reverse

/-- Largest repetition count feasible at the front of `s` for a class
item: bounded by the run of class characters and by the `hi` bound. -/
def capOf (p : Char → Bool) (hi : Option Nat) (s : List Char) : Nat :=
  match hi with
  | none => runLen p s
  | some m => Nat.min m (runLen p s)

/-- Attempt one repetition count `k`: consume `k` characters, update the
previous-character context, and run the continuation matcher `m` on the
remaining suffix. -/
def tryCountWith (m : Option Char → List Char → Option (List Char × List Char))
    (prev : Option Char) (s : List Char) (k : Nat) : Option (List Char × List Char) :=
  let taken := s.take k
  let prev2 := match taken.getLast? with
    | some c => some c
    | none => prev
  match m prev2 (s.drop k) with
  | some pr => some (taken ++ pr.1, pr.2)
  | none => none

/-- Backtracking matcher for an item list at the start of `s`.
`prev` is the character just before `s` in the whole subject (for `\b`).
On success returns the consumed characters and the remaining suffix;
repetitions are greedy and backtrack from the largest feasible count,
exactly as the JS engine behaves on these alternation-free patterns. -/
def matchItems : List Item → Option Char → List Char → Option (List Char × List Char)
  | [], _, s => some ([], s)
  | Item.wb :: rest, prev, s =>
    if atBoundary prev s then matchItems rest prev s else none
  | Item.cls p lo hi :: rest, prev, s =>
    firstSome? (tryCountWith (fun pv ss => matchItems rest pv ss) prev s)
      (countsDesc lo (capOf p hi s))

/-- Character before position `i` of the subject, if any. -/
def prevChar (cs : List Char) (i : Nat) : Option Char :=
  if i = 0 then none else cs.get? (i - 1)

/-- Try to match the pattern at position `i` of the subject;
returns the matched characters. -/
def matchAt (items : List Item) (cs : List Char) (i : Nat) : Option (List Char) :=
  match matchItems items (prevChar cs i) (cs.drop i) with
  | some pr => some pr.1
  | none => none

/-- Leftmost match at or after position `i`: the JS regex search. -/
def searchFrom (items : List Item) (cs : List Char) (i : Nat) : Option (Nat × List Char) :=
  firstSome? (fun j =>
    match matchAt items cs j with
    | some m => some (j, m)
    | none => none) (List.range' i (cs.length + 1 - i))

/-- Global matching loop: collect successive leftmost matches, resuming
after each match (advancing one position past an empty match, as JS
`String.match` with a `/g` regex does). -/
def globalGo (items : List Item) (cs : List Char) : Nat → Nat → List (List Char)
  | 0, _ => []
  | Nat.succ f, i =>
    match searchFrom items cs i with
    | none => []
    | some pr =>
      pr.2 :: globalGo items cs f (if pr.2.isEmpty then pr.1 + 1 else pr.1 + pr.2.length)

/-- Embedding of JS `text.match(pattern)` for a `/g` pattern
(`null` becomes the empty list). -/
def jsMatchAll (pattern : List Item) (text : String) : List String :=
  (globalGo pattern text.data (text.data.length + 1) 0).map List.asString

/-- Embedding of JS `pattern.test(text)` for a non-global pattern. -/
def jsTest (pattern : List Item) (text : String) : Bool :=
  (searchFrom pattern text.data 0).isSome

/-- `EMAIL_PATTERN` from `src/utils/patterns.js` line 31:
`/\b[A-Za-z0-9._%+-]+@[A-Za-z0-9.-]+\.[A-Z|a-z]{2,}\b/g`. -/
def EMAIL_PATTERN : List Item :=
  [Item.wb,
   Item.cls localChar 1 none,
   Item.cls (chr '@') 1 (some 1),
   Item.cls domainChar 1 none,
   Item.cls (chr '.') 1 (some 1),
   Item.cls tldChar 2 none,
   Item.wb]

/-- Phone pattern 1: `/\+\d{1,3}[\s.-]?\(?\d{1,4}\)?[\s.-]?\d{1,4}[\s.-]?\d{1,4}[\s.-]?\d{0,4}/g`. -/
def PHONE_PATTERN_1 : List Item :=
  [Item.cls (chr '+') 1 (some 1),
   Item.cls digitChar 1 (some 3),
   Item.cls sepChar 0 (some 1),
   Item.cls (chr '(') 0 (some 1),
   Item.cls digitChar 1 (some 4),
   Item.cls (chr ')') 0 (some 1),
   Item.cls sepChar 0 (some 1),
   Item.cls digitChar 1 (some 4),
   Item.cls sepChar 0 (some 1),
   Item.cls digitChar 1 (some 4),
   Item.cls sepChar 0 (some 1),
   Item.cls digitChar 0 (some 4)]

/-- Phone pattern 2: `/\(?\d{2,4}\)?[\s.-]?\d{3,4}[\s.-]?\d{3,4}/g`. -/
def PHONE_PATTERN_2 : List Item :=
  [Item.cls (chr '(') 0 (some 1),
   Item.cls digitChar 2 (some 4),
   Item.cls (chr ')') 0 (some 1),
   Item.cls sepChar 0 (some 1),
   Item.cls digitChar 3 (some 4),
   Item.cls sepChar 0 (some 1),
   Item.cls digitChar 3 (some 4)]

/-- Phone pattern 3: `/\d{3}[\s.-]\d{3}[\s.-]\d{4}/g`. -/
def PHONE_PATTERN_3 : List Item :=
  [Item.cls digitChar 3 (some 3),
   Item.cls sepChar 1 (some 1),
   Item.cls digitChar 3 (some 3),
   Item.cls sepChar 1 (some 1),
   Item.cls digitChar 4 (some 4)]

/-- Phone pattern 4: `/\b00\s?\d{1,3}[\s.-]?\d{1,4}[\s.-]?\d{1,4}[\s.-]?\d{1,4}\b/g`. -/
def PHONE_PATTERN_4 : List Item :=
  [Item.wb,
   Item.cls (chr '0') 2 (some 2),
   Item.cls isJsWhitespace 0 (some 1),
   Item.cls digitChar 1 (some 3),
   Item.cls sepChar 0 (some 1),
   Item.cls digitChar 1 (some 4),
   Item.cls sepChar 0 (some 1),
   Item.cls digitChar 1 (some 4),
   Item.cls sepChar 0 (some 1),
   Item.cls digitChar 1 (some 4),
   Item.wb]

/-- Phone pattern 5: `/\b\d{10,15}\b/g`. -/
def PHONE_PATTERN_5 : List Item :=
  [Item.wb,
   Item.cls digitChar 10 (some 15),
   Item.wb]

/-- `PHONE_PATTERNS` from `src/utils/patterns.js` lines 34-49,
in the source's fixed order. -/
def PHONE_PATTERNS : List (List Item) :=
  [PHONE_PATTERN_1, PHONE_PATTERN_2, PHONE_PATTERN_3, PHONE_PATTERN_4, PHONE_PATTERN_5]

/-- `isEmail` from `src/utils/patterns.js` lines 56-59: tests its own
copy of the email regex (without the `g` flag) against the text. -/
def isEmail (text : String) : Bool :=
  jsTest
    [Item.wb,
     Item.cls localChar 1 none,
     Item.cls (chr '@') 1 (some 1),
     Item.cls domainChar 1 none,
     Item.cls (chr '.') 1 (some 1),
     Item.cls tldChar 2 none,
     Item.wb] text

/-- `isPhone` from `src/utils/patterns.js` lines 66-75: tests its own
copies of the five phone regexes, in order, with `Array.some`. -/
def isPhone (text : String) : Bool :=
  [PHONE_PATTERN_1, PHONE_PATTERN_2, PHONE_PATTERN_3, PHONE_PATTERN_4,
   PHONE_PATTERN_5].any (fun pattern => jsTest pattern text)

/-- `findEmails` from `src/utils/patterns.js` lines 82-85. -/
def findEmails (text : String) : List String :=
  jsMatchAll EMAIL_PATTERN text

/-- One step of the `findPhones` de-duplication: the state is
(`allMatches`, `seenMatches`); a match is appended to both exactly when
it has not been seen. -/
def dedupStep (acc : List String × List String) (m : String) : List String × List String :=
  if m ∈ acc.2 then acc else (acc.1 ++ [m], acc.2 ++ [m])

/-- `findPhones` from `src/utils/patterns.js` lines 92-110: run the five
patterns in order against the full text, merging matches first-seen-wins
with the literal matched substring as the key. -/
def findPhones (text : String) : List String :=
  (PHONE_PATTERNS.foldl
    (fun acc pattern => (jsMatchAll pattern text).foldl dedupStep acc)
    ([], [])).1

/-- `containsPII` from `src/utils/patterns.js` lines 117-119. -/
def containsPII (text : String) : Bool :=
  isEmail text || isPhone text

/-! ## Matching predicate used to state soundness of the matcher

`ItemsMatch items cs` says that `cs` splits into consecutive blocks, one
per `cls` item, each block drawn from the item's class with a length
within the item's bounds (`wb` items consume nothing). -/

def ItemsMatch : List Item → List Char → Prop
  | [], cs => cs = []
  | Item.wb :: rest, cs => ItemsMatch rest cs
  | Item.cls p lo hi :: rest, cs =>
    ∃ a b, cs = a ++ b ∧ lo ≤ a.length ∧ (∀ m, hi = some m → a.length ≤ m)
      ∧ (∀ c ∈ a, p c = true) ∧ ItemsMatch rest b

/-! ## Claim-side email shape

`EmailShape tldOK m` renders the spec sentence "shape `local@domain.tld`,
local part from `[A-Za-z0-9._%+-]`, domain from `[A-Za-z0-9.-]`, TLD of
at least two characters from `tldOK`". `emailShapeCheck` is an executable
equivalent used to evaluate the shape on concrete strings. -/

def EmailShape (tldOK : Char → Bool) (m : String) : Prop :=
  ∃ l d tl : List Char,
    m.data = l ++ '@' :: (d ++ '.' :: tl) ∧
    l ≠ [] ∧ (∀ c ∈ l, localChar c = true) ∧
    d ≠ [] ∧ (∀ c ∈ d, domainChar c = true) ∧
    2 ≤ tl.length ∧ (∀ c ∈ tl, tldOK c = true)

/-- All ways to split a list into a prefix and a suffix. -/
def splitsOf : List Char → List (List Char × List Char)
  | [] => [([], [])]
  | c :: cs => ([], c :: cs) :: (splitsOf cs).map (fun pr => (c :: pr.1, pr.2))

/-- Executable test for `EmailShape`. -/
def emailShapeCheck (tldOK : Char → Bool) (cs : List Char) : Bool :=
  (splitsOf cs).any (fun pr =>
    match pr.2 with
    | a :: rest =>
      (a == '@') && decide (pr.1 ≠ []) && pr.1.all localChar &&
      ((splitsOf rest).any (fun qr =>
        match qr.2 with
        | b :: tl =>
          (b == '.') && decide (qr.1 ≠ []) && qr.1.all domainChar &&
          decide (2 ≤ tl.length) && tl.all tldOK
        | [] => false))
    | [] => false)

/-! ## Text and coordinate extractor (`src/services/pdfExtractor.js`)

The document model carries what the extractor reads from the decoder:
per page, a viewport (width/height at scale 1.0) and an ordered list of
text runs, each with its string, its placement `transform[4]`/`transform[5]`
(called `tx`/`ty` here) and its width/height. Numbers are embedded as
rationals. -/

structure TextItem where
  str : String
  tx : ℚ
  ty : ℚ
  width : ℚ
  height : ℚ
deriving DecidableEq

structure PageModel where
  width : ℚ
  height : ℚ
  items : List TextItem
deriving DecidableEq

structure PIIItem where
  text : String
  x : ℚ
  y : ℚ
  width : ℚ
  height : ℚ
  type : String
deriving DecidableEq

structure PageRedactionSet where
  pageNumber : Nat
  items : List PIIItem
  pageHeight : ℚ
  pageWidth : ℚ
deriving DecidableEq

/-- JS `String.trim`: drop JS whitespace from both ends. -/
def jsTrim (s : String) : String :=
  (((s.data.dropWhile isJsWhitespace).reverse.dropWhile isJsWhitespace).reverse).asString

/-- Body of the per-page `textContent.items.forEach` loop of
`extractPIICoordinates` (`pdfExtractor.js` lines 40-82): trim, skip
empty, test `containsPII`, flip Y, then push one item per email and one
per phone, all with the run's box. -/
def pageLoopBody (pageHeight : ℚ) (acc : List PIIItem) (item : TextItem) : List PIIItem :=
  let text := jsTrim item.str
  if text = "" then acc
  else if containsPII text then
    let x := item.tx
    let y := pageHeight - item.ty
    let width := item.width
    let height := item.height
    let emailItems := (findEmails text).map (fun email =>
      { text := email, x := x, y := y - height, width := width, height := height,
        type := "email" : PIIItem })
    let phoneItems := (findPhones text).map (fun phone =>
      { text := phone, x := x, y := y - height, width := width, height := height,
        type := "phone" : PIIItem })
    acc ++ emailItems ++ phoneItems
  else acc

/-- All PII items found on one page, in run order. -/
def pagePIIItems (pageHeight : ℚ) (runs : List TextItem) : List PIIItem :=
  runs.foldl (pageLoopBody pageHeight) []

/-- Body of the page loop of `extractPIICoordinates` (lines 31-92): a
page contributes a `PageRedactionSet` only when it has at least one item;
`pageNumber` is the 1-based page index. -/
def extractPageStep (acc : List PageRedactionSet) (pair : Nat × PageModel) : List PageRedactionSet :=
  let pageItems := pagePIIItems pair.2.height pair.2.items
  if pageItems.isEmpty then acc
  else acc ++ [{ pageNumber := pair.1 + 1, items := pageItems,
                 pageHeight := pair.2.height, pageWidth := pair.2.width }]

/-- `extractPIICoordinates` from `pdfExtractor.js` lines 17-99 (on an
already-parsed document). -/
def extractPIICoordinates (doc : List PageModel) : List PageRedactionSet :=
  doc.enum.foldl extractPageStep []

/-- Transcription of the spec's extraction sentence for one text run:
trim; skip if empty; if `containsPII`, emit one PIIMatch per email and
per phone token, all sharing the box
`{x: transform.tx, y: (pageHeight - transform.ty) - height, width, height}`. -/
def specRunMatches (pageHeight : ℚ) (run : TextItem) : List PIIItem :=
  let t := jsTrim run.str
  if t = "" then []
  else if containsPII t then
    (findEmails t).map (fun email =>
      { text := email, x := run.tx, y := (pageHeight - run.ty) - run.height,
        width := run.width, height := run.height, type := "email" : PIIItem })
    ++ (findPhones t).map (fun phone =>
      { text := phone, x := run.tx, y := (pageHeight - run.ty) - run.height,
        width := run.width, height := run.height, type := "phone" : PIIItem })
  else []

/-- Transcription of the spec's extraction sentence for one page: pages
yielding zero matches are omitted; `pageNumber` is the document's
1-based absolute page number. -/
def specPageSet (pair : Nat × PageModel) : Option PageRedactionSet :=
  let items := pair.2.items.flatMap (specRunMatches pair.2.height)
  if items = [] then none
  else some { pageNumber := pair.1 + 1, items := items,
              pageHeight := pair.2.height, pageWidth := pair.2.width }

/-- The extraction contract exactly as the spec words it, to be compared
with `extractPIICoordinates`. -/
def extractMatchesSpec (doc : List PageModel) : List PageRedactionSet :=
  doc.enum.filterMap specPageSet

/-! ## Redaction engine (`src/services/pdfRedactor.js`)

The pdf-lib effects (drawing, saving, re-loading, encrypting) are
embedded as an explicit operation trace plus oracles for the external
save/encrypt/reload capabilities. -/

/-- `rgb(211/255, 211/255, 211/255)` — light gray `#D3D3D3`
(`pdfRedactor.js` line 150 of the service file). -/
def REDACTION_COLOR : ℚ × ℚ × ℚ := (211/255, 211/255, 211/255)

/-- Options object passed to `pdfDoc.save` (`none` = field omitted,
i.e. the encoder's default). -/
structure SaveOptions where
  useObjectStreams : Option Bool
  addDefaultPage : Option Bool
deriving DecidableEq

/-- Save strategy 1: `{useObjectStreams: false, addDefaultPage: false}`. -/
def strategy1 : SaveOptions := { useObjectStreams := some false, addDefaultPage := some false }

/-- Save strategy 2: `pdfDoc.save()` with default options. -/
def strategyDefault : SaveOptions := { useObjectStreams := none, addDefaultPage := none }

/-- Save strategy 3: `{useObjectStreams: true, addDefaultPage: false}`. -/
def strategy3 : SaveOptions := { useObjectStreams := some true, addDefaultPage := some false }

/-- The ladder order fixed by the source (lines 292-316). -/
def strategyList : List SaveOptions := [strategy1, strategyDefault, strategy3]

/-- A page-mutating operation performed by the redaction engine. -/
inductive RedactOp where
  | drawRectangle (pageIndex : Nat) (x y width height : ℚ)
      (color : ℚ × ℚ × ℚ) (opacity : ℚ) (borderWidth : ℚ)
  | removeText (pageIndex : Nat) (text : String)
deriving DecidableEq

/-- Is the operation a content-stream text-removal attempt? -/
def isRemoveText : RedactOp → Bool
  | RedactOp.removeText _ _ => true
  | _ => false

/-- What a verification re-load of the output exposes: the page list
with each page's `getSize()` result. -/
structure LoadedDoc where
  pages : List (ℚ × ℚ)
deriving DecidableEq

/-- External capabilities used by `redactPDF`: multi-option save,
qpdf encryption, verification re-load, and byte length. -/
structure RedactEnv (β : Type) where
  save : SaveOptions → Except String β
  encrypt : β → Except String β
  reload : β → Except String LoadedDoc
  len : β → Nat

/-- Observable outcome of `redactPDF`: the page operations performed,
the save strategies attempted in order, the warnings logged, and the
returned bytes or error. -/
structure RedactOutcome (β : Type) where
  ops : List RedactOp
  saveAttempts : List SaveOptions
  warnings : List String
  result : Except String β

deriving instance DecidableEq for Except

instance {β : Type} [DecidableEq β] : DecidableEq (RedactOutcome β) :=
  fun a b =>
    decidable_of_iff
      (a.ops = b.ops ∧ a.saveAttempts = b.saveAttempts ∧ a.warnings = b.warnings
        ∧ a.result = b.result)
      (by cases a; cases b; simp [RedactOutcome.mk.injEq])

/-- The rectangles drawn for one page's items (`pdfRedactor.js` lines
270-286): one rectangle per PII item, with `padding = 2`, color
`REDACTION_COLOR`, `opacity: 1.0`, `borderWidth: 0`. -/
def drawOpsForPage (pageIndex : Nat) (pageHeight : ℚ) (items : List PIIItem) : List RedactOp :=
  items.map (fun item =>
    RedactOp.drawRectangle pageIndex (item.x - 2) (pageHeight - item.y - item.height - 2)
      (item.width + 2 * 2) (item.height + 2 * 2) REDACTION_COLOR 1 0)

/-- `pdfDoc.getPage(index)`: out-of-bounds indices throw. -/
def getPageAt (doc : List PageModel) (idx : Int) : Option PageModel :=
  if idx < 0 then none else doc.get? idx.toNat

/-- The page loop of `redactPDF` (lines 264-287): for each redaction
set, look the page up by `pageNumber - 1` and draw one rectangle per
item. No text-removal operation is issued anywhere in this loop. -/
def buildOps (doc : List PageModel) : List PageRedactionSet → Except String (List RedactOp)
  | [] => Except.ok []
  | pageData :: rest =>
    match getPageAt doc ((pageData.pageNumber : Int) - 1) with
    | none => Except.error "Page index out of bounds"
    | some page =>
      match buildOps doc rest with
      | Except.ok ops =>
        Except.ok (drawOpsForPage (pageData.pageNumber - 1) page.height pageData.items ++ ops)
      | Except.error e => Except.error e

/-- Claim-side description of the page loop: exactly one `#D3D3D3`
rectangle per item, at
`{x: item.x - 2, y: pageHeight - item.y - item.height - 2,
  width: item.width + 4, height: item.height + 4}`. -/
def redactRectSpec (doc : List PageModel) (pageData : PageRedactionSet) : List RedactOp :=
  match getPageAt doc ((pageData.pageNumber : Int) - 1) with
  | some page =>
    pageData.items.map (fun item =>
      RedactOp.drawRectangle (pageData.pageNumber - 1) (item.x - 2)
        (page.height - item.y - item.height - 2) (item.width + 4) (item.height + 4)
        (211/255, 211/255, 211/255) 1 0)
  | none => []

/-- The save fallback ladder of `redactPDF` (lines 289-324): strategy 1,
then the default options, then strategy 3, stopping at the first
success; exhausting all three produces the terminal save error.
Returns the attempted strategies in order together with the result. -/
def saveLadder {β : Type} (save : SaveOptions → Except String β) :
    List SaveOptions × Except String β :=
  match save strategy1 with
  | Except.ok bytes => ([strategy1], Except.ok bytes)
  | Except.error _ =>
    match save strategyDefault with
    | Except.ok bytes => ([strategy1, strategyDefault], Except.ok bytes)
    | Except.error _ =>
      match save strategy3 with
      | Except.ok bytes => ([strategy1, strategyDefault, strategy3], Except.ok bytes)
      | Except.error e3 =>
        ([strategy1, strategyDefault, strategy3],
         Except.error ("Failed to save redacted PDF after trying multiple strategies: " ++ e3))

/-- Claim-side chain-of-responsibility: the first success among the
strategies, in order; `none` exactly when all fail. -/
def firstSuccess {β : Type} (save : SaveOptions → Except String β) :
    List SaveOptions → Option β
  | [] => none
  | o :: os =>
    match save o with
    | Except.ok b => some b
    | Except.error _ => firstSuccess save os

/-- Claim-side list of strategies tried: every strategy up to and
including the first success. -/
def triedUntil {β : Type} (save : SaveOptions → Except String β) :
    List SaveOptions → List SaveOptions
  | [] => []
  | o :: os =>
    match save o with
    | Except.ok _ => [o]
    | Except.error _ => o :: triedUntil save os

/-- Warning text of `pdfRedactor.js` lines 369-371. -/
def mismatchWarning (original output : Nat) : String :=
  "Page count mismatch: input had " ++ toString original ++
  " pages, output has " ++ toString output ++ " pages"

/-- A page with a zero dimension (lines 379-380). -/
def badDim (pg : ℚ × ℚ) : Bool := pg.1 == 0 || pg.2 == 0

/-- Post-write validation of `redactPDF` (lines 345-386): size floor,
verification re-load, page-count > 0, page-count mismatch logged as a
warning only (lines 368-372), and non-zero page dimensions. Returns the
warnings logged and the validation result. -/
def validateOutput (outputLen : Nat) (reloaded : Except String LoadedDoc)
    (originalPageCount : Nat) : List String × Except String Unit :=
  if outputLen < 200 then
    ([], Except.error "Output PDF is too small and likely corrupted")
  else
    match reloaded with
    | Except.error e => ([], Except.error ("Output PDF validation failed: " ++ e))
    | Except.ok verifyDoc =>
      if verifyDoc.pages.length = 0 then
        ([], Except.error ("Output PDF validation failed: " ++ "Output PDF has no pages"))
      else
        let warns :=
          if verifyDoc.pages.length ≠ originalPageCount then
            [mismatchWarning originalPageCount verifyDoc.pages.length]
          else []
        match verifyDoc.pages.findIdx? badDim with
        | some i =>
          (warns, Except.error ("Output PDF validation failed: " ++
            "Page " ++ toString (i + 1) ++ " has invalid dimensions"))
        | none => (warns, Except.ok ())

/-- `redactPDF` from `pdfRedactor.js` lines 204-393, on an
already-loaded unprotected document: zero-page check, page loop
(rectangles only), save ladder, optional encryption whose failure is
swallowed, size/structure validation, and the outer error wrapper
`"Failed to redact PDF: "`. -/
def redactPDF {β : Type} (doc : List PageModel) (piiItems : List PageRedactionSet)
    (skipEncryption : Bool) (env : RedactEnv β) : RedactOutcome β :=
  let originalPageCount := doc.length
  if originalPageCount = 0 then
    { ops := [], saveAttempts := [], warnings := [],
      result := Except.error ("Failed to redact PDF: " ++ "Input PDF has no pages") }
  else
    match buildOps doc piiItems with
    | Except.error e =>
      { ops := [], saveAttempts := [], warnings := [],
        result := Except.error ("Failed to redact PDF: " ++ e) }
    | Except.ok ops =>
      match saveLadder env.save with
      | (attempts, Except.error e) =>
        { ops := ops, saveAttempts := attempts, warnings := [],
          result := Except.error ("Failed to redact PDF: " ++ e) }
      | (attempts, Except.ok bytes) =>
        let encStep : List String × β :=
          if skipEncryption then ([], bytes)
          else
            match env.encrypt bytes with
            | Except.ok encrypted => ([], encrypted)
            | Except.error _ => (["Continuing without encryption restrictions"], bytes)
        let validation := validateOutput (env.len encStep.2) (env.reload encStep.2) originalPageCount
        match validation.2 with
        | Except.error e =>
          { ops := ops, saveAttempts := attempts, warnings := encStep.1 ++ validation.1,
            result := Except.error ("Failed to redact PDF: " ++ e) }
        | Except.ok _ =>
          { ops := ops, saveAttempts := attempts, warnings := encStep.1 ++ validation.1,
            result := Except.ok encStep.2 }

/-! ## Statistics reporter (`pdfRedactor.js` lines 487-509) -/

structure Statistics where
  totalRedactions : Nat
  emails : Nat
  phones : Nat
  pagesAffected : Nat
deriving DecidableEq

/-- The per-item counter update of `getRedactionStats`: `totalItems++`;
`emailCount++` if the type is `"email"`, else `phoneCount++` if it is
`"phone"`. -/
def statsStep (acc : Nat × Nat × Nat) (item : PIIItem) : Nat × Nat × Nat :=
  (acc.1 + 1,
   (if item.type = "email" then acc.2.1 + 1 else acc.2.1),
   (if item.type = "email" then acc.2.2
    else if item.type = "phone" then acc.2.2 + 1 else acc.2.2))

/-- `getRedactionStats` from `pdfRedactor.js` lines 487-509. -/
def getRedactionStats (piiItems : List PageRedactionSet) : Statistics :=
  let counts := piiItems.foldl (fun acc pageData => pageData.items.foldl statsStep acc) (0, 0, 0)
  { totalRedactions := counts.1, emails := counts.2.1, phones := counts.2.2,
    pagesAffected := piiItems.length }

/-! ## Concrete inputs used by witnesses and counterexamples -/

/-- A text run holding one email address. -/
def sampleRun : TextItem := { str := "a@b.cd", tx := 1, ty := 2, width := 3, height := 1 }

/-- A 10×10 page holding `sampleRun`. -/
def samplePage : PageModel := { width := 10, height := 10, items := [sampleRun] }

/-- A one-page document. -/
def sampleDoc : List PageModel := [samplePage]

/-- The extraction result for `sampleDoc`. -/
def sampleSet : PageRedactionSet :=
  { pageNumber := 1,
    items := [{ text := "a@b.cd", x := 1, y := 7, width := 3, height := 1, type := "email" }],
    pageHeight := 10, pageWidth := 10 }

/-- The redaction sets fed to `redactPDF` in concrete runs. -/
def samplePII : List PageRedactionSet := [sampleSet]

/-- An environment whose save/reload all succeed and agree with
`sampleDoc` (one page). -/
def sampleEnv : RedactEnv Nat :=
  { save := fun _ => Except.ok 7,
    encrypt := fun b => Except.ok b,
    reload := fun _ => Except.ok { pages := [((10 : ℚ), (10 : ℚ))] },
    len := fun _ => 300 }

/-- An environment whose verification re-load reports two pages, against
a one-page input. -/
def mismatchEnv : RedactEnv Nat :=
  { save := fun _ => Except.ok 7,
    encrypt := fun b => Except.ok b,
    reload := fun _ => Except.ok { pages := [((10 : ℚ), (10 : ℚ)), ((10 : ℚ), (10 : ℚ))] },
    len := fun _ => 300 }

/-- A save oracle on which only the third strategy succeeds. -/
def thirdOnlySave : SaveOptions → Except String Nat :=
  fun o => if o = strategy3 then Except.ok 42 else Except.error "stream writer failure"

/-- The rectangle drawn for the single item of `samplePII` on
`samplePage`. -/
def sampleOp : RedactOp :=
  RedactOp.drawRectangle 0 (-1) 0 7 5 (211/255, 211/255, 211/255) 1 0

/-- A verification re-load result with two pages. -/
def mismatchLoaded : LoadedDoc := { pages := [((10 : ℚ), (10 : ℚ)), ((10 : ℚ), (10 : ℚ))] }

/-- One page with one email item and two phone items. -/
def statsSample : List PageRedactionSet :=
  [{ pageNumber := 1,
     items :=
       [{ text := "a@b.cd", x := 1, y := 7, width := 3, height := 1, type := "email" },
        { text := "647-852-1083", x := 1, y := 9, width := 3, height := 1, type := "phone" },
        { text := "416-555-1234", x := 1, y := 11, width := 3, height := 1, type := "phone" }],
     pageHeight := 10, pageWidth := 10 }]

/-! ## Soundness of the matcher -/

theorem firstSome?_eq_some {α : Type} (f : Nat → Option α) :
    ∀ (l : List Nat) (r : α), firstSome? f l = some r → ∃ k, k ∈ l ∧ f k = some r := by
  intro l
  induction l with
  | nil => intro r h; simp [firstSome?] at h
  | cons k ks ih =>
    intro r h
    cases hk : f k with
    | some v =>
      simp only [firstSome?, hk] at h
      exact ⟨k, List.mem_cons_self k ks, hk.trans h⟩
    | none =>
      simp only [firstSome?, hk] at h
      obtain ⟨k2, hk2, hf⟩ := ih r h
      exact ⟨k2, List.mem_cons_of_mem k hk2, hf⟩

theorem mem_countsDesc (lo cap k : Nat) (h : k ∈ countsDesc lo cap) : lo ≤ k ∧ k ≤ cap := by
  rw [countsDesc, List.mem_reverse, List.mem_range'_1] at h
  omega

theorem runLen_le_length (p : Char → Bool) : ∀ (s : List Char), runLen p s ≤ s.length := by
  intro s
  induction s with
  | nil => simp [runLen]
  | cons c cs ih =>
    simp only [runLen, List.length_cons]
    split
    · omega
    · omega

theorem sat_of_le_runLen (p : Char → Bool) :
    ∀ (s : List Char) (n : Nat), n ≤ runLen p s → ∀ c ∈ s.take n, p c = true := by
  intro s
  induction s with
  | nil => intro n _ c hc; simp at hc
  | cons a cs ih =>
    intro n hn c hc
    cases n with
    | zero => simp at hc
    | succ m =>
      simp only [runLen] at hn
      by_cases hpa : p a = true
      · rw [if_pos hpa] at hn
        simp only [List.take_succ_cons, List.mem_cons] at hc
        rcases hc with rfl | hc
        · exact hpa
        · exact ih m (by omega) c hc
      · rw [if_neg hpa] at hn
        omega

theorem capOf_le_runLen (p : Char → Bool) (hi : Option Nat) (s : List Char) :
    capOf p hi s ≤ runLen p s := by
  cases hi with
  | none => simp [capOf]
  | some m => simp [capOf]

theorem capOf_le_bound (p : Char → Bool) (m : Nat) (s : List Char) :
    capOf p (some m) s ≤ m := by
  simp [capOf]

theorem tryCountWith_eq_some
    (m : Option Char → List Char → Option (List Char × List Char))
    (prev : Option Char) (s : List Char) (k : Nat) (cons rst : List Char)
    (h : tryCountWith m prev s k = some (cons, rst)) :
    ∃ pr, m (match (s.take k).getLast? with
             | some c => some c
             | none => prev) (s.drop k) = some pr
      ∧ cons = s.take k ++ pr.1 ∧ rst = pr.2 := by
  simp only [tryCountWith] at h
  cases hm : m (match (s.take k).getLast? with
                | some c => some c
                | none => prev) (s.drop k) with
  | none => rw [hm] at h; simp at h
  | some pr =>
    rw [hm] at h
    simp only [Option.some.injEq, Prod.mk.injEq] at h
    exact ⟨pr, rfl, h.1.symm, h.2.symm⟩

theorem matchItems_sound :
    ∀ (items : List Item) (prev : Option Char) (s cons rst : List Char),
      matchItems items prev s = some (cons, rst) → s = cons ++ rst ∧ ItemsMatch items cons := by
  intro items
  induction items with
  | nil =>
    intro prev s cons rst h
    simp only [matchItems, Option.some.injEq, Prod.mk.injEq] at h
    obtain ⟨h1, h2⟩ := h
    subst h1; subst h2
    exact ⟨rfl, rfl⟩
  | cons it rest ih =>
    intro prev s cons rst h
    cases it with
    | wb =>
      simp only [matchItems] at h
      split at h
      · exact ih prev s cons rst h
      · simp at h
    | cls p lo hi =>
      simp only [matchItems] at h
      obtain ⟨k, hkmem, hfk⟩ := firstSome?_eq_some _ _ _ h
      obtain ⟨hlo, hcap⟩ := mem_countsDesc lo (capOf p hi s) k hkmem
      have hkrun : k ≤ runLen p s := le_trans hcap (capOf_le_runLen p hi s)
      have hklen : k ≤ s.length := le_trans hkrun (runLen_le_length p s)
      obtain ⟨pr, hm, hcons, hrst⟩ := tryCountWith_eq_some _ prev s k cons rst hfk
      obtain ⟨hsplit, hitems⟩ := ih _ _ _ _ hm
      have htklen : (s.take k).length = k := by
        rw [List.length_take]; omega
      constructor
      · rw [hcons, hrst, List.append_assoc, ← hsplit, List.take_append_drop]
      · refine ⟨s.take k, pr.1, hcons, ?_, ?_, ?_, hitems⟩
        · omega
        · intro mB hmB
          cases hi with
          | none => simp at hmB
          | some mv =>
            have : mB = mv := by
              simp only [Option.some.injEq] at hmB
              exact hmB.symm
            subst this
            have := capOf_le_bound p mB s
            omega
        · exact sat_of_le_runLen p s k hkrun

theorem matchAt_sound (items : List Item) (cs : List Char) (i : Nat) (m : List Char)
    (h : matchAt items cs i = some m) : ItemsMatch items m := by
  simp only [matchAt] at h
  cases hm : matchItems items (prevChar cs i) (cs.drop i) with
  | none => rw [hm] at h; simp at h
  | some pr =>
    rw [hm] at h
    simp only [Option.some.injEq] at h
    subst h
    exact (matchItems_sound items (prevChar cs i) (cs.drop i) pr.1 pr.2 (by rw [hm])).2

theorem searchFrom_eq_some (items : List Item) (cs : List Char) (i j : Nat) (m : List Char)
    (h : searchFrom items cs i = some (j, m)) : matchAt items cs j = some m := by
  simp only [searchFrom] at h
  obtain ⟨k, _, hfk⟩ := firstSome?_eq_some _ _ _ h
  cases hm : matchAt items cs k with
  | none => rw [hm] at hfk; simp at hfk
  | some m2 =>
    rw [hm] at hfk
    simp only [Option.some.injEq, Prod.mk.injEq] at hfk
    obtain ⟨rfl, rfl⟩ := hfk
    exact hm

theorem mem_globalGo (items : List Item) (cs : List Char) :
    ∀ (fuel i : Nat) (m : List Char), m ∈ globalGo items cs fuel i →
      ∃ j, matchAt items cs j = some m := by
  intro fuel
  induction fuel with
  | zero => intro i m h; simp [globalGo] at h
  | succ f ih =>
    intro i m h
    simp only [globalGo] at h
    cases hs : searchFrom items cs i with
    | none => rw [hs] at h; simp at h
    | some pr =>
      rw [hs] at h
      simp only [List.mem_cons] at h
      rcases h with rfl | h
      · exact ⟨pr.1, searchFrom_eq_some items cs i pr.1 pr.2 (by rw [hs])⟩
      · exact ih _ m h

theorem data_asString (l : List Char) : (List.asString l).data = l := rfl

theorem mem_jsMatchAll (pattern : List Item) (t m : String)
    (h : m ∈ jsMatchAll pattern t) :
    ∃ mc, m = List.asString mc ∧ ItemsMatch pattern mc := by
  simp only [jsMatchAll, List.mem_map] at h
  obtain ⟨mc, hmem, rfl⟩ := h
  obtain ⟨j, hj⟩ := mem_globalGo pattern t.data _ _ mc hmem
  exact ⟨mc, rfl, matchAt_sound pattern t.data j mc hj⟩

theorem jsMatchAll_ne_nil_iff (pattern : List Item) (t : String) :
    jsMatchAll pattern t ≠ [] ↔ jsTest pattern t = true := by
  simp only [jsMatchAll, jsTest]
  cases hs : searchFrom pattern t.data 0 with
  | none =>
    have hgo : globalGo pattern t.data (t.data.length + 1) 0 = [] := by
      simp [globalGo, hs]
    rw [hgo]
    simp
  | some pr =>
    have hgo : globalGo pattern t.data (t.data.length + 1) 0 =
        pr.2 :: globalGo pattern t.data t.data.length
          (if pr.2.isEmpty then pr.1 + 1 else pr.1 + pr.2.length) := by
      simp [globalGo, hs]
    rw [hgo]
    simp

/-! ## Email shape lemmas -/

theorem mem_splitsOf : ∀ (cs p s : List Char), (p, s) ∈ splitsOf cs ↔ cs = p ++ s := by
  intro cs
  induction cs with
  | nil =>
    intro p s
    simp only [splitsOf, List.mem_singleton, Prod.mk.injEq]
    constructor
    · rintro ⟨rfl, rfl⟩; rfl
    · intro h
      have h2 := h.symm
      rw [List.append_eq_nil] at h2
      exact ⟨h2.1, h2.2⟩
  | cons c cs ih =>
    intro p s
    simp only [splitsOf, List.mem_cons, List.mem_map, Prod.mk.injEq]
    constructor
    · rintro (⟨rfl, rfl⟩ | ⟨pr, hpr, hp, hs⟩)
      · rfl
      · subst hp; subst hs
        have h2 : cs = pr.1 ++ pr.2 := (ih pr.1 pr.2).mp hpr
        rw [h2]
        rfl
    · intro h
      cases p with
      | nil =>
        left
        simp only [List.nil_append] at h
        exact ⟨rfl, h.symm⟩
      | cons c2 p2 =>
        right
        rw [List.cons_append] at h
        injection h with hc hcs
        refine ⟨(p2, s), (ih p2 s).mpr hcs, ?_, rfl⟩
        rw [hc]

theorem emailShape_iff_check (tldOK : Char → Bool) (m : String) :
    EmailShape tldOK m ↔ emailShapeCheck tldOK m.data = true := by
  rw [EmailShape, emailShapeCheck, List.any_eq_true]
  constructor
  · rintro ⟨l, d, tl, heq, hl, hlc, hd, hdc, htl, htlc⟩
    refine ⟨(l, '@' :: (d ++ '.' :: tl)), (mem_splitsOf _ _ _).mpr heq, ?_⟩
    simp only [List.any_eq_true, Bool.and_eq_true, beq_self_eq_true, decide_eq_true_eq,
      List.all_eq_true, true_and]
    refine ⟨⟨hl, fun c hc => hlc c hc⟩, ?_⟩
    refine ⟨(d, '.' :: tl), (mem_splitsOf _ _ _).mpr rfl, ?_⟩
    simp only [Bool.and_eq_true, beq_self_eq_true, decide_eq_true_eq, List.all_eq_true, true_and]
    exact ⟨⟨⟨hd, fun c hc => hdc c hc⟩, htl⟩, fun c hc => htlc c hc⟩
  · rintro ⟨pr, hmem, hpr⟩
    obtain ⟨l, rest1⟩ := pr
    cases rest1 with
    | nil => simp at hpr
    | cons a rest =>
      simp only [List.any_eq_true, Bool.and_eq_true, beq_iff_eq, decide_eq_true_eq,
        List.all_eq_true] at hpr
      obtain ⟨⟨⟨ha, hl⟩, hlc⟩, qr, hqmem, hq⟩ := hpr
      obtain ⟨d, rest2⟩ := qr
      cases rest2 with
      | nil => simp at hq
      | cons b tl =>
        simp only [Bool.and_eq_true, beq_iff_eq, decide_eq_true_eq, List.all_eq_true] at hq
        obtain ⟨⟨⟨⟨hb, hd⟩, hdc⟩, htl⟩, htlc⟩ := hq
        subst ha; subst hb
        refine ⟨l, d, tl, ?_, hl, hlc, hd, hdc, htl, htlc⟩
        have h1 := (mem_splitsOf _ _ _).mp hmem
        have h2 := (mem_splitsOf _ _ _).mp hqmem
        rw [h1, h2]

/-- Every string returned by `findEmails` decomposes as
`local@domain.tld` with the source's character classes; in particular
the TLD characters come from `[A-Z|a-z]`. -/
theorem findEmails_shape (t m : String) (h : m ∈ findEmails t) : EmailShape tldChar m := by
  obtain ⟨mc, rfl, him⟩ := mem_jsMatchAll EMAIL_PATTERN t m h
  simp only [EMAIL_PATTERN, ItemsMatch] at him
  obtain ⟨l, b1, heq1, hl1, _, hlall, him⟩ := him
  obtain ⟨a2, b2, heq2, ha2lo, ha2hi, ha2all, him⟩ := him
  obtain ⟨d, b3, heq3, hd1, _, hdall, him⟩ := him
  obtain ⟨a4, b4, heq4, ha4lo, ha4hi, ha4all, him⟩ := him
  obtain ⟨tl, b5, heq5, htl2, _, htlall, hb5⟩ := him
  have ha2len : a2.length = 1 := le_antisymm (ha2hi 1 rfl) ha2lo
  obtain ⟨ca, rfl⟩ := List.length_eq_one.mp ha2len
  have hca : ca = '@' := by
    have h2 := ha2all ca (by simp)
    simpa [chr] using h2
  have ha4len : a4.length = 1 := le_antisymm (ha4hi 1 rfl) ha4lo
  obtain ⟨cb, rfl⟩ := List.length_eq_one.mp ha4len
  have hcb : cb = '.' := by
    have h2 := ha4all cb (by simp)
    simpa [chr] using h2
  subst hca; subst hcb; subst hb5
  refine ⟨l, d, tl, ?_, ?_, hlall, ?_, hdall, htl2, htlall⟩
  · rw [data_asString, heq1, heq2, heq3, heq4, heq5]
    simp
  · exact List.length_pos.mp (by omega)
  · exact List.length_pos.mp (by omega)

/-! ## De-duplication lemmas for `findPhones` -/

theorem dedup_fst_eq_snd : ∀ (ms : List String) (acc : List String × List String),
    acc.1 = acc.2 → (ms.foldl dedupStep acc).1 = (ms.foldl dedupStep acc).2 := by
  intro ms
  induction ms with
  | nil => intro acc h; exact h
  | cons m ms ih =>
    intro acc h
    simp only [List.foldl_cons]
    apply ih
    simp only [dedupStep]
    split
    · exact h
    · simp [h]

theorem dedup_nodup : ∀ (ms : List String) (acc : List String × List String),
    acc.1 = acc.2 → acc.1.Nodup → (ms.foldl dedupStep acc).1.Nodup := by
  intro ms
  induction ms with
  | nil => intro acc _ h2; exact h2
  | cons m ms ih =>
    intro acc h h2
    simp only [List.foldl_cons]
    by_cases hm : m ∈ acc.2
    · rw [dedupStep, if_pos hm]
      exact ih acc h h2
    · rw [dedupStep, if_neg hm]
      apply ih _ (by simp [h])
      simp only [List.nodup_append, List.nodup_singleton, List.disjoint_singleton]
      exact ⟨h2, trivial, by rw [h]; exact hm⟩

theorem dedup_mem : ∀ (ms : List String) (acc : List String × List String) (x : String),
    acc.1 = acc.2 → (x ∈ (ms.foldl dedupStep acc).1 ↔ x ∈ acc.1 ∨ x ∈ ms) := by
  intro ms
  induction ms with
  | nil => intro acc x _; simp
  | cons m ms ih =>
    intro acc x h
    simp only [List.foldl_cons]
    by_cases hm : m ∈ acc.2
    · rw [dedupStep, if_pos hm, ih acc x h]
      constructor
      · rintro (hx | hx)
        · exact Or.inl hx
        · exact Or.inr (List.mem_cons_of_mem m hx)
      · rintro (hx | hx)
        · exact Or.inl hx
        · rcases List.mem_cons.mp hx with rfl | hx
          · exact Or.inl (by rw [h]; exact hm)
          · exact Or.inr hx
    · rw [dedupStep, if_neg hm, ih _ x (by simp [h])]
      simp only [List.mem_append, List.mem_singleton, List.mem_cons]
      tauto

theorem phones_fold_fst_eq_snd (t : String) :
    ∀ (pats : List (List Item)) (acc : List String × List String), acc.1 = acc.2 →
      (pats.foldl (fun acc pattern => (jsMatchAll pattern t).foldl dedupStep acc) acc).1 =
      (pats.foldl (fun acc pattern => (jsMatchAll pattern t).foldl dedupStep acc) acc).2 := by
  intro pats
  induction pats with
  | nil => intro acc h; exact h
  | cons p ps ih =>
    intro acc h
    simp only [List.foldl_cons]
    exact ih _ (dedup_fst_eq_snd _ acc h)

theorem phones_fold_nodup (t : String) :
    ∀ (pats : List (List Item)) (acc : List String × List String),
      acc.1 = acc.2 → acc.1.Nodup →
      (pats.foldl (fun acc pattern => (jsMatchAll pattern t).foldl dedupStep acc) acc).1.Nodup := by
  intro pats
  induction pats with
  | nil => intro acc _ h2; exact h2
  | cons p ps ih =>
    intro acc h h2
    simp only [List.foldl_cons]
    exact ih _ (dedup_fst_eq_snd _ acc h) (dedup_nodup _ acc h h2)

theorem phones_fold_mem (t : String) :
    ∀ (pats : List (List Item)) (acc : List String × List String) (x : String),
      acc.1 = acc.2 →
      (x ∈ (pats.foldl (fun acc pattern => (jsMatchAll pattern t).foldl dedupStep acc) acc).1 ↔
        x ∈ acc.1 ∨ ∃ p, p ∈ pats ∧ x ∈ jsMatchAll p t) := by
  intro pats
  induction pats with
  | nil => intro acc x _; simp
  | cons p ps ih =>
    intro acc x h
    simp only [List.foldl_cons]
    rw [ih _ x (dedup_fst_eq_snd _ acc h), dedup_mem _ acc x h]
    constructor
    · rintro ((hx | hx) | ⟨p2, hp2, hx⟩)
      · exact Or.inl hx
      · exact Or.inr ⟨p, List.mem_cons_self p ps, hx⟩
      · exact Or.inr ⟨p2, List.mem_cons_of_mem p hp2, hx⟩
    · rintro (hx | ⟨p2, hp2, hx⟩)
      · exact Or.inl (Or.inl hx)
      · rcases List.mem_cons.mp hp2 with rfl | hp2
        · exact Or.inl (Or.inr hx)
        · exact Or.inr ⟨p2, hp2, hx⟩

theorem findPhones_mem (t x : String) :
    x ∈ findPhones t ↔ ∃ p, p ∈ PHONE_PATTERNS ∧ x ∈ jsMatchAll p t := by
  rw [findPhones, phones_fold_mem t PHONE_PATTERNS ([], []) x rfl]
  simp

theorem findPhones_nodup (t : String) : (findPhones t).Nodup := by
  rw [findPhones]
  exact phones_fold_nodup t PHONE_PATTERNS ([], []) rfl List.nodup_nil

/-! ## Classifier and enumerator agreement -/

theorem isEmail_iff_findEmails (t : String) : isEmail t = true ↔ findEmails t ≠ [] := by
  have h : isEmail t = jsTest EMAIL_PATTERN t := rfl
  rw [h, findEmails, jsMatchAll_ne_nil_iff]

theorem isPhone_iff_findPhones (t : String) : isPhone t = true ↔ findPhones t ≠ [] := by
  have h : isPhone t = PHONE_PATTERNS.any (fun pattern => jsTest pattern t) := rfl
  rw [h, List.any_eq_true]
  constructor
  · rintro ⟨p, hp, htest⟩
    intro hnil
    have hne : jsMatchAll p t ≠ [] := (jsMatchAll_ne_nil_iff p t).mpr htest
    obtain ⟨x, hx⟩ := List.exists_mem_of_ne_nil _ hne
    have : x ∈ findPhones t := (findPhones_mem t x).mpr ⟨p, hp, hx⟩
    rw [hnil] at this
    simp at this
  · intro hne
    obtain ⟨x, hx⟩ := List.exists_mem_of_ne_nil _ hne
    obtain ⟨p, hp, hxp⟩ := (findPhones_mem t x).mp hx
    refine ⟨p, hp, (jsMatchAll_ne_nil_iff p t).mp ?_⟩
    intro h2
    rw [h2] at hxp
    simp at hxp

/-! ## Extractor refinement lemmas -/

theorem pageLoopBody_eq (ph : ℚ) (acc : List PIIItem) (run : TextItem) :
    pageLoopBody ph acc run = acc ++ specRunMatches ph run := by
  simp only [pageLoopBody, specRunMatches]
  split
  · simp
  · split
    · simp [List.append_assoc]
    · simp

theorem pageFoldl_eq (ph : ℚ) : ∀ (runs : List TextItem) (acc : List PIIItem),
    runs.foldl (pageLoopBody ph) acc = acc ++ runs.flatMap (specRunMatches ph) := by
  intro runs
  induction runs with
  | nil => intro acc; simp
  | cons r rs ih =>
    intro acc
    simp only [List.foldl_cons, List.flatMap_cons]
    rw [pageLoopBody_eq, ih, List.append_assoc]

theorem pagePIIItems_eq_bind (ph : ℚ) (runs : List TextItem) :
    pagePIIItems ph runs = runs.flatMap (specRunMatches ph) := by
  rw [pagePIIItems, pageFoldl_eq]
  simp

theorem extractPageStep_eq (acc : List PageRedactionSet) (pair : Nat × PageModel) :
    extractPageStep acc pair = acc ++ (specPageSet pair).toList := by
  simp only [extractPageStep, specPageSet, pagePIIItems_eq_bind]
  by_cases h : pair.2.items.flatMap (specRunMatches pair.2.height) = []
  · simp [h]
  · simp [h]

theorem extract_foldl_eq : ∀ (l : List (Nat × PageModel)) (acc : List PageRedactionSet),
    l.foldl extractPageStep acc = acc ++ l.filterMap specPageSet := by
  intro l
  induction l with
  | nil => intro acc; simp
  | cons x xs ih =>
    intro acc
    simp only [List.foldl_cons]
    rw [extractPageStep_eq, ih, List.append_assoc]
    congr 1
    cases hg : specPageSet x with
    | none => simp [List.filterMap_cons, hg]
    | some s0 => simp [List.filterMap_cons, hg]

theorem extractPII_eq_spec (doc : List PageModel) :
    extractPIICoordinates doc = extractMatchesSpec doc := by
  rw [extractPIICoordinates, extractMatchesSpec, extract_foldl_eq]
  simp

theorem spec_filterMap_bounds : ∀ (ps : List PageModel) (k : Nat) (s : PageRedactionSet),
    s ∈ (List.enumFrom k ps).filterMap specPageSet →
      k + 1 ≤ s.pageNumber ∧ s.pageNumber ≤ k + ps.length ∧ s.items ≠ [] := by
  intro ps
  induction ps with
  | nil => intro k s h; simp [List.enumFrom] at h
  | cons p ps ih =>
    intro k s h
    simp only [List.enumFrom, List.filterMap_cons] at h
    cases hg : specPageSet (k, p) with
    | none =>
      rw [hg] at h
      obtain ⟨h1, h2, h3⟩ := ih (k + 1) s h
      refine ⟨by omega, ?_, h3⟩
      simp only [List.length_cons]
      omega
    | some s0 =>
      rw [hg] at h
      rcases List.mem_cons.mp h with heq | h
      · subst heq
        simp only [specPageSet] at hg
        split at hg
        · simp at hg
        · rename_i hne
          rw [Option.some.injEq] at hg
          rw [← hg]
          refine ⟨le_refl _, ?_, hne⟩
          simp only [List.length_cons]
          omega
      · obtain ⟨h1, h2, h3⟩ := ih (k + 1) s h
        refine ⟨by omega, ?_, h3⟩
        simp only [List.length_cons]
        omega

theorem spec_filterMap_pairwise : ∀ (ps : List PageModel) (k : Nat),
    List.Pairwise (· < ·)
      (((List.enumFrom k ps).filterMap specPageSet).map PageRedactionSet.pageNumber) := by
  intro ps
  induction ps with
  | nil => intro k; simp [List.enumFrom]
  | cons p ps ih =>
    intro k
    simp only [List.enumFrom, List.filterMap_cons]
    cases hg : specPageSet (k, p) with
    | none => exact ih (k + 1)
    | some s0 =>
      simp only [List.map_cons]
      refine List.Pairwise.cons ?_ (ih (k + 1))
      intro y hy
      rw [List.mem_map] at hy
      obtain ⟨s2, hs2, rfl⟩ := hy
      have hb := spec_filterMap_bounds ps (k + 1) s2 hs2
      have hs0 : s0.pageNumber = k + 1 := by
        simp only [specPageSet] at hg
        split at hg
        · simp at hg
        · rw [Option.some.injEq] at hg
          rw [← hg]
      omega

/-! ## Statistics invariant -/

theorem statsItems_inv : ∀ (items : List PIIItem) (acc : Nat × Nat × Nat),
    (∀ it ∈ items, it.type = "email" ∨ it.type = "phone") →
    acc.1 = acc.2.1 + acc.2.2 →
    (items.foldl statsStep acc).1 =
      (items.foldl statsStep acc).2.1 + (items.foldl statsStep acc).2.2 := by
  intro items
  induction items with
  | nil => intro acc _ h; exact h
  | cons it its ih =>
    intro acc hall h
    simp only [List.foldl_cons]
    apply ih _ (fun x hx => hall x (List.mem_cons_of_mem it hx))
    rcases hall it (List.mem_cons_self it its) with he | hp
    · have hstep : statsStep acc it = (acc.1 + 1, acc.2.1 + 1, acc.2.2) := by
        simp [statsStep, he]
      rw [hstep]
      dsimp only
      omega
    · have hstep : statsStep acc it = (acc.1 + 1, acc.2.1, acc.2.2 + 1) := by
        simp [statsStep, hp, show ("phone" : String) ≠ "email" from by decide]
      rw [hstep]
      dsimp only
      omega

theorem statsPages_inv : ∀ (pages : List PageRedactionSet) (acc : Nat × Nat × Nat),
    (∀ pd ∈ pages, ∀ it ∈ pd.items, it.type = "email" ∨ it.type = "phone") →
    acc.1 = acc.2.1 + acc.2.2 →
    (pages.foldl (fun acc pageData => pageData.items.foldl statsStep acc) acc).1 =
      (pages.foldl (fun acc pageData => pageData.items.foldl statsStep acc) acc).2.1 +
      (pages.foldl (fun acc pageData => pageData.items.foldl statsStep acc) acc).2.2 := by
  intro pages
  induction pages with
  | nil => intro acc _ h; exact h
  | cons pd rest ih =>
    intro acc hall h
    simp only [List.foldl_cons]
    apply ih _ (fun x hx => hall x (List.mem_cons_of_mem pd hx))
    exact statsItems_inv pd.items acc (hall pd (List.mem_cons_self pd rest)) h

/-! ## Redaction engine lemmas -/

theorem buildOps_eq_bind (doc : List PageModel) :
    ∀ (piiItems : List PageRedactionSet) (ops : List RedactOp),
      buildOps doc piiItems = Except.ok ops → ops = piiItems.flatMap (redactRectSpec doc) := by
  intro piiItems
  induction piiItems with
  | nil =>
    intro ops h
    simp only [buildOps, Except.ok.injEq] at h
    simp [← h]
  | cons pd rest ih =>
    intro ops h
    simp only [buildOps] at h
    cases hpg : getPageAt doc ((pd.pageNumber : Int) - 1) with
    | none => rw [hpg] at h; simp at h
    | some page =>
      rw [hpg] at h
      cases hbo : buildOps doc rest with
      | error e => rw [hbo] at h; simp at h
      | ok ops2 =>
        rw [hbo] at h
        simp only [Except.ok.injEq] at h
        rw [← h, List.flatMap_cons, ih ops2 hbo]
        congr 1
        simp only [redactRectSpec, hpg, drawOpsForPage]
        have h4 : (2 : ℚ) * 2 = 4 := by norm_num
        simp [REDACTION_COLOR, h4]

theorem buildOps_no_removeText (doc : List PageModel) (piiItems : List PageRedactionSet)
    (ops : List RedactOp) (h : buildOps doc piiItems = Except.ok ops) :
    ∀ op ∈ ops, isRemoveText op = false := by
  intro op hop
  rw [buildOps_eq_bind doc piiItems ops h] at hop
  rw [List.mem_flatMap] at hop
  obtain ⟨pd, _, hop⟩ := hop
  simp only [redactRectSpec] at hop
  split at hop
  · rw [List.mem_map] at hop
    obtain ⟨item, _, heq⟩ := hop
    rw [← heq]
    rfl
  · simp at hop

/-! ## Concrete evaluations of the sample inputs -/

theorem sample_extract_eq : extractPIICoordinates sampleDoc = [sampleSet] := by
  have h1 : jsTrim "a@b.cd" = "a@b.cd" := by decide
  have h2 : containsPII "a@b.cd" = true := by decide
  have h3 : findEmails "a@b.cd" = ["a@b.cd"] := by decide
  have h4 : findPhones "a@b.cd" = [] := by decide
  simp [extractPIICoordinates, extractPageStep, pagePIIItems, pageLoopBody,
    sampleDoc, samplePage, sampleRun, sampleSet, List.enum, List.enumFrom,
    h1, h2, h3, h4]
  norm_num

theorem sample_buildOps_eq : buildOps sampleDoc samplePII = Except.ok [sampleOp] := by
  simp [buildOps, getPageAt, drawOpsForPage, samplePII, sampleSet, sampleDoc, samplePage,
    sampleOp, REDACTION_COLOR]
  norm_num

theorem sample_redact_ops : (redactPDF sampleDoc samplePII true sampleEnv).ops = [sampleOp] := by
  simp only [redactPDF, sample_buildOps_eq]
  simp [sampleDoc, samplePage, sampleEnv, saveLadder, strategy1, validateOutput, badDim]

/-! ## Claim theorems -/

/-- C1 counterexample: on a non-empty redaction set, `redactPDF`
performs no content-stream text-removal operation at all — every
operation in its trace is a rectangle draw, so the claimed best-effort
token-removal step is never attempted. -/
theorem c1_token_removal_not_attempted_cx :
    samplePII ≠ []
    ∧ (∀ pd ∈ samplePII, pd.items ≠ [])
    ∧ ∀ op ∈ (redactPDF sampleDoc samplePII true sampleEnv).ops, isRemoveText op = false := by
  refine ⟨by decide, by decide, ?_⟩
  intro op hop
  rw [sample_redact_ops] at hop
  rw [List.mem_singleton] at hop
  rw [hop]
  rfl

/-- C1 (amended): for every document, redaction-set list, option and
environment, `redactPDF` only draws overlay rectangles: no
content-stream token-removal operation is ever attempted (the
`removeTextFromPage` helper exists in the module but is never invoked),
so a token-removal failure cannot fail the overall operation. -/
theorem c1_redact_overlay_only {β : Type} (doc : List PageModel)
    (piiItems : List PageRedactionSet) (skipEncryption : Bool) (env : RedactEnv β) :
    ∀ op ∈ (redactPDF doc piiItems skipEncryption env).ops, isRemoveText op = false := by
  intro op hop
  simp only [redactPDF] at hop
  split at hop
  · simp at hop
  · cases hbo : buildOps doc piiItems with
    | error e => rw [hbo] at hop; simp at hop
    | ok ops2 =>
      rw [hbo] at hop
      cases hsl : saveLadder env.save with
      | mk attempts res =>
        rw [hsl] at hop
        cases res with
        | error e => simp at hop; exact buildOps_no_removeText doc piiItems ops2 hbo op hop
        | ok bytes =>
          simp only at hop
          split at hop <;>
            exact buildOps_no_removeText doc piiItems ops2 hbo op (by simpa using hop)

/-- C1 witness: the rectangle drawn for the sample item is not a
text-removal operation. -/
theorem c1_redact_overlay_only_witness : isRemoveText sampleOp = false :=
  c1_redact_overlay_only sampleDoc samplePII true sampleEnv sampleOp
    (by rw [sample_redact_ops]; simp)

/-- C2 counterexample: a run of `redactPDF` in which the verification
re-load reports two pages against a one-page input still succeeds and
returns the bytes — the page-count mismatch is not a validation
failure. -/
theorem c2_mismatch_not_failure_cx :
    (redactPDF sampleDoc samplePII true mismatchEnv).result = Except.ok 7
    ∧ mismatchEnv.reload 7 = Except.ok mismatchLoaded
    ∧ mismatchLoaded.pages.length = 2
    ∧ sampleDoc.length = 1 := by
  refine ⟨by decide, by decide, by decide, by decide⟩

/-- C2 (amended): when the size floor, the re-load, the non-zero page
count and the page-dimension checks all pass, the post-write validation
succeeds regardless of the original page count; a page-count mismatch
is only recorded as a warning. -/
theorem c2_mismatch_warning_only (outputLen : Nat) (reloaded : Except String LoadedDoc)
    (originalPageCount : Nat) (d : LoadedDoc)
    (hrel : reloaded = Except.ok d) (hlen : 200 ≤ outputLen)
    (hpages : d.pages.length ≠ 0) (hdims : d.pages.findIdx? badDim = none) :
    (validateOutput outputLen reloaded originalPageCount).2 = Except.ok ()
    ∧ (d.pages.length ≠ originalPageCount →
        mismatchWarning originalPageCount d.pages.length ∈
          (validateOutput outputLen reloaded originalPageCount).1) := by
  subst hrel
  have hnl : ¬ outputLen < 200 := by omega
  constructor
  · simp [validateOutput, hnl, hpages, hdims]
  · intro hne
    simp [validateOutput, hnl, hpages, hdims, hne]

/-- C2 witness: validation of a 300-byte output re-loading as two sound
pages against an original count of 1 succeeds and logs the mismatch
warning. -/
theorem c2_mismatch_warning_only_witness :
    (validateOutput 300 (Except.ok mismatchLoaded) 1).2 = Except.ok ()
    ∧ mismatchWarning 1 2 ∈ (validateOutput 300 (Except.ok mismatchLoaded) 1).1 := by
  have h := c2_mismatch_warning_only 300 (Except.ok mismatchLoaded) 1 mismatchLoaded rfl
    (by omega) (by decide) (by decide)
  exact ⟨h.1, h.2 (by decide)⟩

/-- C3 counterexample: on input `"a@b.cd|ef"`, `findEmails` returns the
whole string, whose segment after the last dot contains `|` — so the
returned string does not have the claimed letters-only TLD shape. -/
theorem c3_tld_letters_only_cx :
    "a@b.cd|ef" ∈ findEmails "a@b.cd|ef"
    ∧ ¬ EmailShape (fun c => c.isAlpha) "a@b.cd|ef" := by
  constructor
  · decide
  · rw [emailShape_iff_check]
    decide

/-- C3 (amended): every string returned by `findEmails` has the shape
`local@domain.tld` with the local part from `[A-Za-z0-9._%+-]`, the
domain from `[A-Za-z0-9.-]`, and a top-level-domain segment of at least
2 characters drawn from ASCII letters and the character `|` (the
source's TLD class `[A-Z|a-z]` literally includes `|`). -/
theorem c3_email_shape_amended (t m : String) (h : m ∈ findEmails t) :
    EmailShape tldChar m :=
  findEmails_shape t m h

/-- C3 witness: the match returned on `"a@b.cd"` has the amended shape. -/
theorem c3_email_shape_amended_witness : EmailShape tldChar "a@b.cd" :=
  c3_email_shape_amended "a@b.cd" "a@b.cd" (by decide)

/-- C4: `findPhones` never returns the same literal substring twice, and
its members are exactly the strings matched by the five phone patterns
(evaluated in their fixed order against the full text and merged
first-seen-wins with the matched substring as the key). -/
theorem c4_findPhones_dedup (t : String) :
    (findPhones t).Nodup
    ∧ ∀ x : String, x ∈ findPhones t ↔ ∃ p, p ∈ PHONE_PATTERNS ∧ x ∈ jsMatchAll p t :=
  ⟨findPhones_nodup t, fun x => findPhones_mem t x⟩

/-- C5: `extractPIICoordinates` computes exactly the spec's description
(trim, skip empty, `containsPII`, one PIIMatch per email and per phone
sharing the run's flipped box, pages with zero matches omitted), and the
returned sets carry strictly ascending 1-based absolute page numbers and
are never empty. -/
theorem c5_extract_refines_spec (doc : List PageModel) :
    extractPIICoordinates doc = extractMatchesSpec doc
    ∧ List.Pairwise (· < ·) ((extractPIICoordinates doc).map PageRedactionSet.pageNumber)
    ∧ ∀ s ∈ extractPIICoordinates doc,
        s.items ≠ [] ∧ 1 ≤ s.pageNumber ∧ s.pageNumber ≤ doc.length := by
  have heq := extractPII_eq_spec doc
  refine ⟨heq, ?_, ?_⟩
  · rw [heq, extractMatchesSpec]
    have h := spec_filterMap_pairwise doc 0
    simpa [List.enum] using h
  · intro s hs
    rw [heq, extractMatchesSpec] at hs
    have hb := spec_filterMap_bounds doc 0 s (by simpa [List.enum] using hs)
    exact ⟨hb.2.2, by omega, by omega⟩

/-- C5 witness: on the one-page sample document the extractor agrees
with the spec description and its single set is non-empty with page
number 1. -/
theorem c5_extract_refines_spec_witness :
    extractPIICoordinates sampleDoc = extractMatchesSpec sampleDoc
    ∧ (sampleSet.items ≠ [] ∧ 1 ≤ sampleSet.pageNumber ∧ sampleSet.pageNumber ≤ sampleDoc.length) := by
  have h := c5_extract_refines_spec sampleDoc
  refine ⟨h.1, h.2.2 sampleSet ?_⟩
  rw [sample_extract_eq]
  simp

/-- C6: whenever the page loop succeeds, its operation list is exactly
one opaque rectangle per PII item, of color `#D3D3D3`
(`(211/255, 211/255, 211/255)`), at
`{x: item.x - 2, y: pageHeight - item.y - item.height - 2,
width: item.width + 4, height: item.height + 4}`. -/
theorem c6_rectangle_per_item (doc : List PageModel) (piiItems : List PageRedactionSet)
    (ops : List RedactOp) (h : buildOps doc piiItems = Except.ok ops) :
    ops = piiItems.flatMap (redactRectSpec doc) :=
  buildOps_eq_bind doc piiItems ops h

/-- C6 witness: the sample set produces exactly the one expected
rectangle. -/
theorem c6_rectangle_per_item_witness :
    [sampleOp] = samplePII.flatMap (redactRectSpec sampleDoc) :=
  c6_rectangle_per_item sampleDoc samplePII [sampleOp] sample_buildOps_eq

/-- C7: the save ladder tries strategy 1 (`useObjectStreams: false`),
then the default options, then strategy 3 (`useObjectStreams: true`),
in this order, stopping at the first success; it returns an error
exactly when the first success does not exist, i.e. exactly when all
three strategies fail. -/
theorem c7_save_ladder {β : Type} (save : SaveOptions → Except String β) :
    (saveLadder save).1 = triedUntil save strategyList
    ∧ (∀ b, (saveLadder save).2 = Except.ok b ↔ firstSuccess save strategyList = some b)
    ∧ ((∃ e, (saveLadder save).2 = Except.error e) ↔ firstSuccess save strategyList = none)
    ∧ (firstSuccess save strategyList = none ↔
        (∃ e1, save strategy1 = Except.error e1)
          ∧ (∃ e2, save strategyDefault = Except.error e2)
          ∧ (∃ e3, save strategy3 = Except.error e3)) := by
  cases h1 : save strategy1 <;> cases h2 : save strategyDefault <;> cases h3 : save strategy3 <;>
    simp [saveLadder, triedUntil, firstSuccess, strategyList, h1, h2, h3]

/-- C7 witness: on a save oracle failing the first two strategies, the
ladder attempts all three in order and returns the third's bytes. -/
theorem c7_save_ladder_witness :
    (saveLadder thirdOnlySave).1 = [strategy1, strategyDefault, strategy3]
    ∧ (saveLadder thirdOnlySave).2 = Except.ok 42 := by
  have h := c7_save_ladder thirdOnlySave
  refine ⟨?_, ?_⟩
  · rw [h.1]; decide
  · exact (h.2.1 42).mpr (by decide)

/-- C8: when every item's type is `"email"` or `"phone"`, the computed
statistics satisfy `totalRedactions = emails + phones` and
`pagesAffected` equals the number of redaction sets. -/
theorem c8_stats_additive (piiItems : List PageRedactionSet)
    (h : ∀ pd ∈ piiItems, ∀ it ∈ pd.items, it.type = "email" ∨ it.type = "phone") :
    (getRedactionStats piiItems).totalRedactions =
      (getRedactionStats piiItems).emails + (getRedactionStats piiItems).phones
    ∧ (getRedactionStats piiItems).pagesAffected = piiItems.length := by
  refine ⟨?_, rfl⟩
  simp only [getRedactionStats]
  exact statsPages_inv piiItems (0, 0, 0) h rfl

/-- C8 witness: one email and two phones on one page give totals
`3 = 1 + 2` with one page affected. -/
theorem c8_stats_additive_witness :
    (getRedactionStats statsSample).totalRedactions =
      (getRedactionStats statsSample).emails + (getRedactionStats statsSample).phones
    ∧ (getRedactionStats statsSample).pagesAffected = statsSample.length :=
  c8_stats_additive statsSample (by decide)

/-- C9: on a zero-page document, `redactPDF` fails with the wrapped
error "Input PDF has no pages" without drawing any rectangle and without
attempting any save strategy. -/
theorem c9_zero_pages_early_error {β : Type} (doc : List PageModel)
    (piiItems : List PageRedactionSet) (skipEncryption : Bool) (env : RedactEnv β)
    (h : doc.length = 0) :
    redactPDF doc piiItems skipEncryption env =
      { ops := [], saveAttempts := [], warnings := [],
        result := Except.error ("Failed to redact PDF: " ++ "Input PDF has no pages") } := by
  simp [redactPDF, h]

/-- C9 witness: the empty document fails early with the no-pages error. -/
theorem c9_zero_pages_early_error_witness :
    redactPDF ([] : List PageModel) samplePII true sampleEnv =
      { ops := [], saveAttempts := [], warnings := [],
        result := Except.error ("Failed to redact PDF: " ++ "Input PDF has no pages") } :=
  c9_zero_pages_early_error [] samplePII true sampleEnv rfl

/-- C10: `containsPII` holds exactly when `findEmails` or `findPhones`
is non-empty, and a trimmed non-empty run is flagged exactly when it
yields at least one PII item. -/
theorem c10_containsPII_iff (t : String) (ph : ℚ) (run : TextItem) :
    (containsPII t = true ↔ (findEmails t ≠ [] ∨ findPhones t ≠ []))
    ∧ (pagePIIItems ph [run] ≠ [] ↔
        (jsTrim run.str ≠ "" ∧ containsPII (jsTrim run.str) = true)) := by
  constructor
  · rw [containsPII, Bool.or_eq_true, isEmail_iff_findEmails, isPhone_iff_findPhones]
  · rw [pagePIIItems, List.foldl_cons, List.foldl_nil, pageLoopBody_eq, List.nil_append,
      specRunMatches]
    by_cases h1 : jsTrim run.str = ""
    · simp [h1]
    · rw [if_neg h1]
      by_cases h2 : containsPII (jsTrim run.str) = true
      · rw [if_pos h2]
        constructor
        · intro _; exact ⟨h1, h2⟩
        · intro _
          rw [containsPII, Bool.or_eq_true, isEmail_iff_findEmails,
            isPhone_iff_findPhones] at h2
          intro hnil
          rw [List.append_eq_nil] at hnil
          obtain ⟨ha, hb⟩ := hnil
          rw [List.map_eq_nil_iff] at ha hb
          rcases h2 with h2 | h2
          · exact h2 ha
          · exact h2 hb
      · rw [if_neg h2]
        simp [h1, h2]

end CvEditor
